import Mathlib

/-!
Verification of the tab and navigation-history subsystem of the Horizon
Browser (`src/ui/src/tabs.rs`), shallowly embedded in Lean 4.

`Tab` and `TabManager` mirror the Rust structs field by field; each Rust
method becomes a pure Lean function on the state (mutating methods return
the new state, methods returning `bool` return a pair).  Rust's
`Vec<String>` becomes `List String`, `usize` becomes `Nat` (all index
arithmetic in the source is guarded so no wrap-around occurs under the
invariants, which is itself proved below), `Vec::truncate` is `List.take`,
`Vec::push` is appending a singleton, and `Vec::remove` is
`List.eraseIdx`.  Rust panicking indexing `v[i]` is embedded as `getD`
with a default, and the bounds that make the default unreachable are
proved separately.  `Uuid::new_v4()` is an external random source; it is
modelled by passing the freshly generated id string as an explicit
parameter to `Tab.new`.
-/

namespace Horizon

/-- Mirror of the Rust struct `Tab` in `src/ui/src/tabs.rs`. -/
structure Tab where
  id : String
  url : String
  title : String
  history : List String
  history_index : Nat
  is_loading : Bool
  deriving Repr, DecidableEq

namespace Tab

/-- `Tab::new(url)`.  The `freshId` parameter stands for the string
produced by `Uuid::new_v4().to_string()`. -/
def new (freshId : String) (url : String) : Tab :=
  { id := freshId
    url := url
    title := "New Tab"
    history := [url]
    history_index := 0
    is_loading := false }

/-- `Tab::navigate_to(&mut self, url)`. -/
def navigate_to (t : Tab) (url : String) : Tab :=
  let h :=
    if t.history_index < t.history.length - 1 then
      t.history.take (t.history_index + 1)
    else
      t.history
  let h2 := h ++ [url]
  { t with
    history := h2
    history_index := h2.length - 1
    url := url
    is_loading := true }

/-- `Tab::can_go_back(&self)`. -/
def can_go_back (t : Tab) : Bool :=
  decide (t.history_index > 0)

/-- `Tab::can_go_forward(&self)`.  Note `usize` subtraction: under the
invariant `history` is non-empty so `history.len() - 1` never underflows
(proved below). -/
def can_go_forward (t : Tab) : Bool :=
  decide (t.history_index < t.history.length - 1)

/-- `Tab::go_back(&mut self)`: the returned `Bool` is the Rust return
value; the `Tab` is the state after the call. -/
def go_back (t : Tab) : Tab × Bool :=
  if t.can_go_back then
    let i := t.history_index - 1
    ({ t with
        history_index := i
        url := t.history.getD i ""
        is_loading := true }, true)
  else
    (t, false)

/-- `Tab::go_forward(&mut self)`. -/
def go_forward (t : Tab) : Tab × Bool :=
  if t.can_go_forward then
    let i := t.history_index + 1
    ({ t with
        history_index := i
        url := t.history.getD i ""
        is_loading := true }, true)
  else
    (t, false)

/-- `Tab::reload(&mut self)`. -/
def reload (t : Tab) : Tab :=
  { t with is_loading := true }

/-- `Tab::set_title(&mut self, title)`. -/
def set_title (t : Tab) (title : String) : Tab :=
  { t with title := title }

/-- `Tab::finish_loading(&mut self)`. -/
def finish_loading (t : Tab) : Tab :=
  { t with is_loading := false }

/-- `Tab::display_title(&self)`. -/
def display_title (t : Tab) : String :=
  if t.title = "New Tab" ∨ t.title = "" then t.url else t.title

end Tab

/-- The documented `Tab` invariant: the history is never empty, the
cursor is in bounds, and the entry under the cursor is the current URL. -/
def TabInv (t : Tab) : Prop :=
  t.history ≠ [] ∧
  t.history_index < t.history.length ∧
  t.history.getD t.history_index "" = t.url

instance (t : Tab) : Decidable (TabInv t) := by
  unfold TabInv; infer_instance

/-- One application of a per-tab command, as a step relation on `Tab`. -/
inductive TabStep : Tab → Tab → Prop
  | navigate (t : Tab) (url : String) : TabStep t (t.navigate_to url)
  | back (t : Tab) : TabStep t t.go_back.1
  | forward (t : Tab) : TabStep t t.go_forward.1
  | reload (t : Tab) : TabStep t t.reload
  | set_title (t : Tab) (s : String) : TabStep t (t.set_title s)
  | finish (t : Tab) : TabStep t t.finish_loading

/-- `Tab` states reachable from `Tab::new` by per-tab commands. -/
inductive TabReachable : Tab → Prop
  | new (freshId url : String) : TabReachable (Tab.new freshId url)
  | step {t t' : Tab} : TabReachable t → TabStep t t' → TabReachable t'

/-- Mirror of the Rust struct `TabManager` in `src/ui/src/tabs.rs`. -/
structure TabManager where
  tabs : List Tab
  active_tab_index : Nat
  deriving Repr, DecidableEq

namespace TabManager

/-- `TabManager::new()`.  The initial tab's uuid is abstracted as the
parameter `freshId`. -/
def new (freshId : String) : TabManager :=
  { tabs := [Tab.new freshId "about:home"], active_tab_index := 0 }

/-- `TabManager::active_tab(&self)`: the Rust method indexes
`tabs[active_tab_index]` and panics out of bounds; embedded as the
optional lookup, with in-boundedness proved separately. -/
def active_tab (m : TabManager) : Option Tab :=
  m.tabs[m.active_tab_index]?

/-- `TabManager::tab_count(&self)`. -/
def tab_count (m : TabManager) : Nat :=
  m.tabs.length

/-- `TabManager::new_tab(&mut self, url)`; `freshId` models the uuid of
the created tab. -/
def new_tab (m : TabManager) (freshId url : String) : TabManager :=
  let tabs := m.tabs ++ [Tab.new freshId url]
  { tabs := tabs, active_tab_index := tabs.length - 1 }

/-- `TabManager::close_tab(&mut self, index)`. -/
def close_tab (m : TabManager) (index : Nat) : TabManager × Bool :=
  if m.tabs.length ≤ 1 then
    (m, false)
  else if index < m.tabs.length then
    let tabs := m.tabs.eraseIdx index
    let a :=
      if m.active_tab_index ≥ tabs.length then
        tabs.length - 1
      else if index ≤ m.active_tab_index ∧ m.active_tab_index > 0 then
        m.active_tab_index - 1
      else
        m.active_tab_index
    ({ tabs := tabs, active_tab_index := a }, true)
  else
    (m, false)

/-- `TabManager::switch_to_tab(&mut self, index)`. -/
def switch_to_tab (m : TabManager) (index : Nat) : TabManager × Bool :=
  if index < m.tabs.length then
    ({ m with active_tab_index := index }, true)
  else
    (m, false)

/-- Running a per-tab command on the active tab through
`active_tab_mut()`: the tab at `active_tab_index` is replaced by `f`
applied to it (no other field of the manager is touched). -/
def update_active (m : TabManager) (f : Tab → Tab) : TabManager :=
  match m.tabs[m.active_tab_index]? with
  | some t => { m with tabs := m.tabs.set m.active_tab_index (f t) }
  | none => m

end TabManager

/-- The documented `TabManager` invariant (also asserted by the Rust
`check_invariants`): the tab list is non-empty and the active index is in
bounds. -/
def MgrInv (m : TabManager) : Prop :=
  m.tabs ≠ [] ∧ m.active_tab_index < m.tabs.length

instance (m : TabManager) : Decidable (MgrInv m) := by
  unfold MgrInv; infer_instance

/-- One documented `TabManager` operation, as a step relation. -/
inductive MgrStep : TabManager → TabManager → Prop
  | new_tab (m : TabManager) (freshId url : String) :
      MgrStep m (m.new_tab freshId url)
  | close (m : TabManager) (i : Nat) : MgrStep m (m.close_tab i).1
  | switch (m : TabManager) (i : Nat) : MgrStep m (m.switch_to_tab i).1
  | tab_cmd (m : TabManager) (f : Tab → Tab) : MgrStep m (m.update_active f)

/-- `TabManager` states reachable from `TabManager::new()` by the
documented operations. -/
inductive MgrReachable : TabManager → Prop
  | new (freshId : String) : MgrReachable (TabManager.new freshId)
  | step {m m' : TabManager} : MgrReachable m → MgrStep m m' → MgrReachable m'

/-! ### Helper lemmas -/

lemma getD_concat_length (l : List String) (a : String) :
    (l ++ [a]).getD l.length "" = a := by
  simp [List.getD_eq_getElem?_getD, List.getElem?_concat_length]

lemma getElem?_eq_some_getD (l : List String) (i : Nat) (h : i < l.length) :
    l[i]? = some (l.getD i "") := by
  rw [List.getD_eq_getElem?_getD, List.getElem?_eq_getElem h]
  rfl

/-! ### Tab invariant preservation -/

lemma tabInv_new (freshId url : String) : TabInv (Tab.new freshId url) := by
  refine ⟨by simp [Tab.new], by simp [Tab.new], ?_⟩
  simp [Tab.new, List.getD]

lemma navigate_history (t : Tab) (url : String) :
    (t.navigate_to url).history =
      (if t.history_index < t.history.length - 1 then
        t.history.take (t.history_index + 1)
      else t.history) ++ [url] := by
  simp only [Tab.navigate_to]

lemma tabInv_navigate (t : Tab) (url : String) : TabInv (t.navigate_to url) := by
  have hh := navigate_history t url
  set h : List String :=
    (if t.history_index < t.history.length - 1 then
      t.history.take (t.history_index + 1)
    else t.history) with hdef
  have hlen : (t.navigate_to url).history.length = h.length + 1 := by
    rw [hh]; simp
  have hidx : (t.navigate_to url).history_index = h.length := by
    simp only [Tab.navigate_to]
    simp
  refine ⟨?_, ?_, ?_⟩
  · rw [hh]; simp
  · rw [hlen, hidx]; omega
  · rw [hh, hidx]
    have : (t.navigate_to url).url = url := by simp [Tab.navigate_to]
    rw [this]
    exact getD_concat_length h url

lemma tabInv_go_back {t : Tab} (ht : TabInv t) : TabInv t.go_back.1 := by
  obtain ⟨h1, h2, h3⟩ := ht
  by_cases hc : t.can_go_back
  · have hlt : t.history_index - 1 < t.history.length := by omega
    simp only [Tab.go_back, hc, if_pos]
    exact ⟨h1, hlt, rfl⟩
  · simp only [Tab.go_back, hc]
    simp only [Bool.false_eq_true, if_false]
    exact ⟨h1, h2, h3⟩

lemma tabInv_go_forward {t : Tab} (ht : TabInv t) : TabInv t.go_forward.1 := by
  obtain ⟨h1, h2, h3⟩ := ht
  by_cases hc : t.can_go_forward
  · have hb : t.history_index < t.history.length - 1 := by
      simpa [Tab.can_go_forward] using hc
    have hlt : t.history_index + 1 < t.history.length := by omega
    simp only [Tab.go_forward, hc, if_pos]
    exact ⟨h1, hlt, rfl⟩
  · simp only [Tab.go_forward, hc]
    simp only [Bool.false_eq_true, if_false]
    exact ⟨h1, h2, h3⟩

lemma tabInv_reload {t : Tab} (ht : TabInv t) : TabInv t.reload := ht

lemma tabInv_set_title {t : Tab} (ht : TabInv t) (s : String) :
    TabInv (t.set_title s) := ht

lemma tabInv_finish {t : Tab} (ht : TabInv t) : TabInv t.finish_loading := ht

lemma tabInv_step {t t' : Tab} (ht : TabInv t) (hs : TabStep t t') : TabInv t' := by
  cases hs with
  | navigate url => exact tabInv_navigate t url
  | back => exact tabInv_go_back ht
  | forward => exact tabInv_go_forward ht
  | reload => exact tabInv_reload ht
  | set_title s => exact tabInv_set_title ht s
  | finish => exact tabInv_finish ht

lemma tabInv_reachable {t : Tab} (h : TabReachable t) : TabInv t := by
  induction h with
  | new freshId url => exact tabInv_new freshId url
  | step _ hs ih => exact tabInv_step ih hs

/-! ### TabManager invariant preservation -/

lemma mgrInv_new (freshId : String) : MgrInv (TabManager.new freshId) := by
  constructor <;> simp [TabManager.new]

lemma mgrInv_new_tab (m : TabManager) (freshId url : String) :
    MgrInv (m.new_tab freshId url) := by
  constructor
  · simp [TabManager.new_tab]
  · simp [TabManager.new_tab]

/-- Shape of `close_tab` on the failure paths. -/
lemma close_tab_neg (m : TabManager) (i : Nat)
    (h : m.tabs.length ≤ 1 ∨ m.tabs.length ≤ i) :
    m.close_tab i = (m, false) := by
  unfold TabManager.close_tab
  rcases h with h | h
  · rw [if_pos h]
  · by_cases h1 : m.tabs.length ≤ 1
    · rw [if_pos h1]
    · rw [if_neg h1, if_neg (by omega)]

/-- Shape of `close_tab` on the success path. -/
lemma close_tab_pos (m : TabManager) (i : Nat)
    (h1 : 1 < m.tabs.length) (h2 : i < m.tabs.length) :
    m.close_tab i =
      ({ tabs := m.tabs.eraseIdx i,
         active_tab_index :=
           if (m.tabs.eraseIdx i).length ≤ m.active_tab_index then
             (m.tabs.eraseIdx i).length - 1
           else if i ≤ m.active_tab_index ∧ 0 < m.active_tab_index then
             m.active_tab_index - 1
           else m.active_tab_index }, true) := by
  unfold TabManager.close_tab
  rw [if_neg (by omega), if_pos h2]

lemma mgrInv_close {m : TabManager} (hm : MgrInv m) (i : Nat) :
    MgrInv (m.close_tab i).1 := by
  obtain ⟨h1, h2⟩ := hm
  by_cases hlen : m.tabs.length ≤ 1
  · rw [close_tab_neg m i (Or.inl hlen)]
    exact ⟨h1, h2⟩
  · by_cases hi : i < m.tabs.length
    · rw [close_tab_pos m i (by omega) hi]
      have herase : (m.tabs.eraseIdx i).length = m.tabs.length - 1 :=
        List.length_eraseIdx_of_lt hi
      refine ⟨fun hnil => ?_, ?_⟩
      · have h0 : (m.tabs.eraseIdx i).length = 0 := by
          have := congrArg List.length hnil
          simpa using this
        omega
      · simp only
        split
        · omega
        · split
          · rename_i hge hand
            omega
          · rename_i hge hand
            omega
    · rw [close_tab_neg m i (Or.inr (by omega))]
      exact ⟨h1, h2⟩

lemma mgrInv_switch {m : TabManager} (hm : MgrInv m) (i : Nat) :
    MgrInv (m.switch_to_tab i).1 := by
  obtain ⟨h1, h2⟩ := hm
  unfold TabManager.switch_to_tab
  split
  · rename_i hi
    exact ⟨h1, hi⟩
  · exact ⟨h1, h2⟩

lemma mgrInv_update {m : TabManager} (hm : MgrInv m) (f : Tab → Tab) :
    MgrInv (m.update_active f) := by
  obtain ⟨h1, h2⟩ := hm
  unfold TabManager.update_active
  split
  · constructor
    · intro hnil
      apply h1
      have h0 := congrArg List.length hnil
      simp only [List.length_set] at h0
      exact List.eq_nil_of_length_eq_zero h0
    · simpa using h2
  · exact ⟨h1, h2⟩

lemma mgrInv_step {m m' : TabManager} (hm : MgrInv m) (hs : MgrStep m m') :
    MgrInv m' := by
  cases hs with
  | new_tab freshId url => exact mgrInv_new_tab m freshId url
  | close i => exact mgrInv_close hm i
  | switch i => exact mgrInv_switch hm i
  | tab_cmd f => exact mgrInv_update hm f

lemma mgrInv_reachable {m : TabManager} (h : MgrReachable m) : MgrInv m := by
  induction h with
  | new freshId => exact mgrInv_new freshId
  | step _ hs ih => exact mgrInv_step ih hs

/-! ### Claims -/

/-- C1: every `TabManager` state reachable from `new()` by the documented
operations (`new_tab`, `close_tab`, `switch_to_tab`, per-tab commands on
the active tab) has a non-empty tab collection and
`active_tab_index < tab_count()`. -/
theorem claim_C1_manager_invariant {m : TabManager} (h : MgrReachable m) :
    m.tabs ≠ [] ∧ m.active_tab_index < m.tab_count :=
  mgrInv_reachable h

theorem claim_C1_manager_invariant_witness :
    (TabManager.new "w1").tabs ≠ [] ∧
      (TabManager.new "w1").active_tab_index < (TabManager.new "w1").tab_count :=
  claim_C1_manager_invariant (MgrReachable.new "w1")

/-- C3: every `Tab` state reachable from `create(initial_url)` by the
per-tab operations has a non-empty history, an in-bounds
`history_index`, and `history[history_index] == url`. -/
theorem claim_C3_tab_invariant {t : Tab} (h : TabReachable t) :
    t.history ≠ [] ∧ t.history_index < t.history.length ∧
      t.history[t.history_index]? = some t.url := by
  obtain ⟨h1, h2, h3⟩ := tabInv_reachable h
  exact ⟨h1, h2, by rw [getElem?_eq_some_getD _ _ h2, h3]⟩

theorem claim_C3_tab_invariant_witness :
    (Tab.new "w3" "u").history ≠ [] ∧
      (Tab.new "w3" "u").history_index < (Tab.new "w3" "u").history.length ∧
      (Tab.new "w3" "u").history[(Tab.new "w3" "u").history_index]? =
        some (Tab.new "w3" "u").url :=
  claim_C3_tab_invariant (TabReachable.new "w3" "u")

/-- The `close_tab` active-index tie-break exactly as worded in the spec
(claim C2): from the old `active_tab_index`, the post-removal length, and
the removed index. -/
def closeTabSpecNewIndex (oldActive newLen index : Nat) : Nat :=
  if newLen ≤ oldActive then newLen - 1
  else if index ≤ oldActive ∧ 0 < oldActive then oldActive - 1
  else oldActive

/-- C2: with at least two tabs and an in-bounds index, `close_tab(index)`
removes the tab at `index`, re-derives `active_tab_index` by exactly the
spec's tie-break (clamp when at or beyond the new length; else decrement
when `index ≤ old active` and `old active > 0`; else unchanged), and
returns `true`. -/
theorem claim_C2_close_tab (m : TabManager) (index : Nat)
    (h1 : 2 ≤ m.tabs.length) (h2 : index < m.tabs.length) :
    m.close_tab index =
      ({ tabs := m.tabs.eraseIdx index,
         active_tab_index :=
           closeTabSpecNewIndex m.active_tab_index
             (m.tabs.eraseIdx index).length index }, true) := by
  rw [close_tab_pos m index (by omega) h2]
  rfl

theorem claim_C2_close_tab_witness :
    ({ tabs := [Tab.new "a" "u0", Tab.new "b" "u1", Tab.new "c" "u2"],
       active_tab_index := 2 } : TabManager).close_tab 0 =
      ({ tabs := [Tab.new "b" "u1", Tab.new "c" "u2"],
         active_tab_index := 1 }, true) := by
  rw [claim_C2_close_tab _ 0 (by decide) (by decide)]
  rfl

/-- C6: `close_tab(index)` returns `false` and leaves the manager
unchanged when `tab_count() ≤ 1` or `index` is out of bounds, and
`switch_to_tab(index)` with an out-of-bounds index returns `false` and
leaves the state unchanged. -/
theorem claim_C6_failure_paths (m : TabManager) (index : Nat) :
    (m.tabs.length ≤ 1 ∨ m.tabs.length ≤ index →
      m.close_tab index = (m, false)) ∧
    (m.tabs.length ≤ index → m.switch_to_tab index = (m, false)) := by
  refine ⟨close_tab_neg m index, fun h => ?_⟩
  unfold TabManager.switch_to_tab
  rw [if_neg (by omega)]

theorem claim_C6_failure_paths_witness :
    (TabManager.new "w6").close_tab 0 = (TabManager.new "w6", false) ∧
      (TabManager.new "w6").switch_to_tab 99 = (TabManager.new "w6", false) :=
  ⟨(claim_C6_failure_paths (TabManager.new "w6") 0).1 (Or.inl (by decide)),
   (claim_C6_failure_paths (TabManager.new "w6") 99).2 (by decide)⟩

/-- C7: `new_tab(u)` appends a freshly created tab built from `u` at the
end of the collection and makes it active: afterwards
`active_tab_index() == tab_count() − 1`, `active_tab().url == u`, and all
pre-existing tabs are unchanged. -/
theorem claim_C7_new_tab (m : TabManager) (freshId url : String) :
    (m.new_tab freshId url).active_tab_index =
        (m.new_tab freshId url).tab_count - 1 ∧
    (m.new_tab freshId url).active_tab = some (Tab.new freshId url) ∧
    (Tab.new freshId url).url = url ∧
    (m.new_tab freshId url).tabs = m.tabs ++ [Tab.new freshId url] := by
  refine ⟨rfl, ?_, rfl, rfl⟩
  unfold TabManager.active_tab TabManager.new_tab
  simp only
  have hidx : (m.tabs ++ [Tab.new freshId url]).length - 1 = m.tabs.length := by
    simp
  rw [hidx]
  exact List.getElem?_concat_length _ _

theorem claim_C7_new_tab_witness :
    ((TabManager.new "w7").new_tab "f7" "https://example.com").active_tab_index =
        ((TabManager.new "w7").new_tab "f7" "https://example.com").tab_count - 1 ∧
    ((TabManager.new "w7").new_tab "f7" "https://example.com").active_tab =
        some (Tab.new "f7" "https://example.com") ∧
    (Tab.new "f7" "https://example.com").url = "https://example.com" ∧
    ((TabManager.new "w7").new_tab "f7" "https://example.com").tabs =
        (TabManager.new "w7").tabs ++ [Tab.new "f7" "https://example.com"] :=
  claim_C7_new_tab (TabManager.new "w7") "f7" "https://example.com"

/-- Length of the kept history prefix in `navigate_to`: under the
invariant it is always `history_index + 1`, whether or not the forward
branch is discarded. -/
lemma hist_prefix_length (t : Tab) (h : TabInv t) :
    (if t.history_index < t.history.length - 1 then
      t.history.take (t.history_index + 1)
    else t.history).length = t.history_index + 1 := by
  obtain ⟨-, h2, -⟩ := h
  split
  · rw [List.length_take]
    omega
  · omega

/-- The kept history prefix still holds the current URL at the cursor. -/
lemma hist_prefix_getElem (t : Tab) (h : TabInv t) :
    (if t.history_index < t.history.length - 1 then
      t.history.take (t.history_index + 1)
    else t.history)[t.history_index]? = some t.url := by
  obtain ⟨-, h2, h3⟩ := h
  have hcur : t.history[t.history_index]? = some t.url := by
    rw [getElem?_eq_some_getD _ _ h2, h3]
  split
  · rw [List.getElem?_take_of_lt (Nat.lt_succ_self _)]
    exact hcur
  · exact hcur

/-- C4: `navigate_to(url)` truncates history to `history_index + 1`
entries exactly when `history_index < len(history) − 1`, appends `url`,
sets `history_index = len(history) − 1`, sets the `url` field, sets
`is_loading = true`; and with no equality check, navigating to the
current address still pushes a duplicate entry (the history strictly
grows and holds the address at both `history_index` and
`history_index + 1`). -/
theorem claim_C4_navigate (t : Tab) (url : String) (h : TabInv t) :
    (t.navigate_to url).history =
      (if t.history_index < t.history.length - 1 then
        t.history.take (t.history_index + 1)
      else t.history) ++ [url] ∧
    (t.navigate_to url).history_index =
      (t.navigate_to url).history.length - 1 ∧
    (t.navigate_to url).url = url ∧
    (t.navigate_to url).is_loading = true ∧
    (t.navigate_to url).history.length = t.history_index + 2 ∧
    (t.navigate_to t.url).history[t.history_index]? = some t.url ∧
    (t.navigate_to t.url).history[t.history_index + 1]? = some t.url := by
  have hplen := hist_prefix_length t h
  refine ⟨navigate_history t url, rfl, rfl, rfl, ?_, ?_, ?_⟩
  · rw [navigate_history t url]
    rw [List.length_append, hplen]
    simp
  · rw [navigate_history t t.url]
    rw [List.getElem?_append_left (by rw [hplen]; omega)]
    exact hist_prefix_getElem t h
  · rw [navigate_history t t.url]
    have hcat := List.getElem?_concat_length
      (if t.history_index < t.history.length - 1 then
        t.history.take (t.history_index + 1)
      else t.history) t.url
    rw [hplen] at hcat
    exact hcat

theorem claim_C4_navigate_witness :
    let t : Tab := { id := "i4", url := "B", title := "T",
                     history := ["A", "B", "C"], history_index := 1,
                     is_loading := false }
    (t.navigate_to "D").history =
      (if t.history_index < t.history.length - 1 then
        t.history.take (t.history_index + 1)
      else t.history) ++ ["D"] ∧
    (t.navigate_to "D").history_index =
      (t.navigate_to "D").history.length - 1 ∧
    (t.navigate_to "D").url = "D" ∧
    (t.navigate_to "D").is_loading = true ∧
    (t.navigate_to "D").history.length = t.history_index + 2 ∧
    (t.navigate_to t.url).history[t.history_index]? = some t.url ∧
    (t.navigate_to t.url).history[t.history_index + 1]? = some t.url :=
  claim_C4_navigate _ "D" (by decide)

/-- C5: `go_back()` returns `true` exactly when `can_go_back()` held
beforehand, in which case it decrements `history_index`, sets
`url = history[history_index]` and `is_loading = true` while leaving
`history`, `id`, `title` alone; on failure the whole tab is unchanged;
`go_forward()` behaves symmetrically on the upper bound. -/
theorem claim_C5_back_forward (t : Tab) (h : TabInv t) :
    (t.go_back.2 = t.can_go_back) ∧
    (t.can_go_back = true →
      t.go_back.1.history_index = t.history_index - 1 ∧
      t.history[t.history_index - 1]? = some t.go_back.1.url ∧
      t.go_back.1.is_loading = true ∧
      t.go_back.1.history = t.history ∧
      t.go_back.1.id = t.id ∧ t.go_back.1.title = t.title) ∧
    (t.can_go_back = false → t.go_back.1 = t) ∧
    (t.go_forward.2 = t.can_go_forward) ∧
    (t.can_go_forward = true →
      t.go_forward.1.history_index = t.history_index + 1 ∧
      t.history[t.history_index + 1]? = some t.go_forward.1.url ∧
      t.go_forward.1.is_loading = true ∧
      t.go_forward.1.history = t.history ∧
      t.go_forward.1.id = t.id ∧ t.go_forward.1.title = t.title) ∧
    (t.can_go_forward = false → t.go_forward.1 = t) := by
  obtain ⟨-, h2, -⟩ := h
  refine ⟨?_, ?_, ?_, ?_, ?_, ?_⟩
  · by_cases hc : t.can_go_back <;> simp [Tab.go_back, hc]
  · intro hc
    have hb : 0 < t.history_index := by
      simpa [Tab.can_go_back] using hc
    have hgb : t.go_back =
        ({ t with history_index := t.history_index - 1,
                  url := t.history.getD (t.history_index - 1) "",
                  is_loading := true }, true) := by
      simp [Tab.go_back, hc]
    rw [hgb]
    exact ⟨rfl, getElem?_eq_some_getD _ _ (by omega), rfl, rfl, rfl, rfl⟩
  · intro hc
    simp [Tab.go_back, hc]
  · by_cases hc : t.can_go_forward <;> simp [Tab.go_forward, hc]
  · intro hc
    have hf : t.history_index < t.history.length - 1 := by
      simpa [Tab.can_go_forward] using hc
    have hgf : t.go_forward =
        ({ t with history_index := t.history_index + 1,
                  url := t.history.getD (t.history_index + 1) "",
                  is_loading := true }, true) := by
      simp [Tab.go_forward, hc]
    rw [hgf]
    exact ⟨rfl, getElem?_eq_some_getD _ _ (by omega), rfl, rfl, rfl, rfl⟩
  · intro hc
    simp [Tab.go_forward, hc]

theorem claim_C5_back_forward_witness :
    let t : Tab := { id := "i5", url := "B", title := "T",
                     history := ["A", "B"], history_index := 1,
                     is_loading := false }
    (t.go_back.2 = t.can_go_back) ∧
    (t.can_go_back = true →
      t.go_back.1.history_index = t.history_index - 1 ∧
      t.history[t.history_index - 1]? = some t.go_back.1.url ∧
      t.go_back.1.is_loading = true ∧
      t.go_back.1.history = t.history ∧
      t.go_back.1.id = t.id ∧ t.go_back.1.title = t.title) ∧
    (t.can_go_back = false → t.go_back.1 = t) ∧
    (t.go_forward.2 = t.can_go_forward) ∧
    (t.can_go_forward = true →
      t.go_forward.1.history_index = t.history_index + 1 ∧
      t.history[t.history_index + 1]? = some t.go_forward.1.url ∧
      t.go_forward.1.is_loading = true ∧
      t.go_forward.1.history = t.history ∧
      t.go_forward.1.id = t.id ∧ t.go_forward.1.title = t.title) ∧
    (t.can_go_forward = false → t.go_forward.1 = t) :=
  claim_C5_back_forward _ (by decide)

/-- C8 counterexample: a freshly created tab is Idle, and calling
`go_back()` on it (which fails, since `history_index = 0`) leaves it
Idle — refuting that every call to `go_back` moves the tab to
Loading. -/
theorem claim_C8_counterexample :
    (Tab.new "w8" "about:home").is_loading = false ∧
      ((Tab.new "w8" "about:home").go_back).1.is_loading = false ∧
      ((Tab.new "w8" "about:home").go_back).2 = false := by
  exact ⟨rfl, rfl, rfl⟩

/-- C8 (amended): viewing a `Tab` as a two-state machine on `is_loading`
with initial state Idle: `navigate_to` and `reload` always move to
Loading; `go_back`/`go_forward` move to Loading exactly on the calls
that return `true` (a failed call leaves the state unchanged);
`finish_loading` moves to Idle; and no operation other than
`finish_loading` ever changes `is_loading` from `true` to `false`. -/
theorem claim_C8_loading_machine (freshId url ttl : String) (t t' : Tab) :
    (Tab.new freshId url).is_loading = false ∧
    (t.navigate_to url).is_loading = true ∧
    t.reload.is_loading = true ∧
    (t.go_back.2 = true → t.go_back.1.is_loading = true) ∧
    (t.go_back.2 = false → t.go_back.1.is_loading = t.is_loading) ∧
    (t.go_forward.2 = true → t.go_forward.1.is_loading = true) ∧
    (t.go_forward.2 = false → t.go_forward.1.is_loading = t.is_loading) ∧
    t.finish_loading.is_loading = false ∧
    (t.set_title ttl).is_loading = t.is_loading ∧
    (TabStep t t' → t.is_loading = true → t'.is_loading = false →
      t' = t.finish_loading) := by
  refine ⟨rfl, rfl, rfl, ?_, ?_, ?_, ?_, rfl, rfl, ?_⟩
  · intro hs
    by_cases hc : t.can_go_back
    · simp [Tab.go_back, hc]
    · simp [Tab.go_back, hc] at hs
  · intro hs
    by_cases hc : t.can_go_back
    · simp [Tab.go_back, hc] at hs
    · simp [Tab.go_back, hc]
  · intro hs
    by_cases hc : t.can_go_forward
    · simp [Tab.go_forward, hc]
    · simp [Tab.go_forward, hc] at hs
  · intro hs
    by_cases hc : t.can_go_forward
    · simp [Tab.go_forward, hc] at hs
    · simp [Tab.go_forward, hc]
  · intro hstep hload hclear
    cases hstep with
    | navigate url2 =>
      exact absurd hclear (by simp [Tab.navigate_to])
    | back =>
      by_cases hc : t.can_go_back
      · exact absurd hclear (by simp [Tab.go_back, hc])
      · exact absurd hclear (by simp [Tab.go_back, hc, hload])
    | forward =>
      by_cases hc : t.can_go_forward
      · exact absurd hclear (by simp [Tab.go_forward, hc])
      · exact absurd hclear (by simp [Tab.go_forward, hc, hload])
    | reload =>
      exact absurd hclear (by simp [Tab.reload])
    | set_title s =>
      exact absurd hclear (by simp [Tab.set_title, hload])
    | finish =>
      rfl

theorem claim_C8_loading_machine_witness :
    (Tab.new "f8" "u8").is_loading = false ∧
    ((Tab.new "f8" "u8").navigate_to "u8").is_loading = true ∧
    (Tab.new "f8" "u8").reload.is_loading = true ∧
    ((Tab.new "f8" "u8").go_back.2 = true →
      (Tab.new "f8" "u8").go_back.1.is_loading = true) ∧
    ((Tab.new "f8" "u8").go_back.2 = false →
      (Tab.new "f8" "u8").go_back.1.is_loading = (Tab.new "f8" "u8").is_loading) ∧
    ((Tab.new "f8" "u8").go_forward.2 = true →
      (Tab.new "f8" "u8").go_forward.1.is_loading = true) ∧
    ((Tab.new "f8" "u8").go_forward.2 = false →
      (Tab.new "f8" "u8").go_forward.1.is_loading = (Tab.new "f8" "u8").is_loading) ∧
    (Tab.new "f8" "u8").finish_loading.is_loading = false ∧
    ((Tab.new "f8" "u8").set_title "t8").is_loading = (Tab.new "f8" "u8").is_loading ∧
    (TabStep (Tab.new "f8" "u8") ((Tab.new "f8" "u8").finish_loading) →
      (Tab.new "f8" "u8").is_loading = true →
      ((Tab.new "f8" "u8").finish_loading).is_loading = false →
      (Tab.new "f8" "u8").finish_loading = (Tab.new "f8" "u8").finish_loading) :=
  claim_C8_loading_machine "f8" "u8" "t8" (Tab.new "f8" "u8")
    ((Tab.new "f8" "u8").finish_loading)

/-- C9: under the `Tab` and `TabManager` invariants every operation is
total and panic-free: the `len(history) − 1` subtractions never
underflow (history is never empty), the history indexings in
`go_back`/`go_forward` and the tab indexing in `active_tab` are in
bounds, and `tabs.remove(index)` in `close_tab` is only reached with
`index` in bounds. -/
theorem claim_C9_panic_freedom (t : Tab) (m : TabManager) (index : Nat)
    (ht : TabInv t) (hm : MgrInv m) :
    1 ≤ t.history.length ∧
    t.history_index < t.history.length ∧
    (t.can_go_back = true → (t.history[t.history_index - 1]?).isSome = true) ∧
    (t.can_go_forward = true →
      (t.history[t.history_index + 1]?).isSome = true) ∧
    (m.tabs[m.active_tab_index]?).isSome = true ∧
    ((m.close_tab index).2 = true → index < m.tabs.length) := by
  obtain ⟨h1, h2, -⟩ := ht
  refine ⟨?_, h2, ?_, ?_, ?_, ?_⟩
  · have := List.length_pos.mpr h1
    omega
  · intro hc
    have hb : 0 < t.history_index := by
      simpa [Tab.can_go_back] using hc
    rw [List.getElem?_eq_getElem (by omega)]
    rfl
  · intro hc
    have hf : t.history_index < t.history.length - 1 := by
      simpa [Tab.can_go_forward] using hc
    rw [List.getElem?_eq_getElem (by omega)]
    rfl
  · rw [List.getElem?_eq_getElem hm.2]
    rfl
  · intro hres
    by_cases hidx : index < m.tabs.length
    · exact hidx
    · by_cases hlen : m.tabs.length ≤ 1
      · rw [close_tab_neg m index (Or.inl hlen)] at hres
        exact absurd hres (by simp)
      · rw [close_tab_neg m index (Or.inr (by omega))] at hres
        exact absurd hres (by simp)

theorem claim_C9_panic_freedom_witness :
    let t : Tab := { id := "i9", url := "B", title := "T",
                     history := ["A", "B"], history_index := 1,
                     is_loading := false }
    let m : TabManager :=
      { tabs := [Tab.new "a9" "u0", Tab.new "b9" "u1"], active_tab_index := 0 }
    1 ≤ t.history.length ∧
    t.history_index < t.history.length ∧
    (t.can_go_back = true → (t.history[t.history_index - 1]?).isSome = true) ∧
    (t.can_go_forward = true →
      (t.history[t.history_index + 1]?).isSome = true) ∧
    (m.tabs[m.active_tab_index]?).isSome = true ∧
    ((m.close_tab 1).2 = true → 1 < m.tabs.length) :=
  claim_C9_panic_freedom _ _ 1 (by decide) (by decide)

/-- C10: closing an in-bounds tab other than the active one (with at
least two tabs) succeeds, keeps the very same tab active — afterwards
`active_tab()` is the identical tab value (same id, url, title,
history, cursor, loading flag) — and the surviving tabs keep their
contents and relative order. -/
theorem claim_C10_close_other (m : TabManager) (index : Nat)
    (hm : MgrInv m) (h2 : 2 ≤ m.tabs.length) (h3 : index < m.tabs.length)
    (hne : index ≠ m.active_tab_index) :
    (m.close_tab index).2 = true ∧
    (m.close_tab index).1.active_tab = m.active_tab ∧
    (m.close_tab index).1.tabs = m.tabs.eraseIdx index := by
  obtain ⟨-, hact⟩ := hm
  rw [close_tab_pos m index (by omega) h3]
  refine ⟨rfl, ?_, rfl⟩
  unfold TabManager.active_tab
  simp only
  have herase : (m.tabs.eraseIdx index).length = m.tabs.length - 1 :=
    List.length_eraseIdx_of_lt h3
  split
  · rename_i hclamp
    have h5 : m.active_tab_index = m.tabs.length - 1 := by omega
    have h6 : index < m.active_tab_index := by omega
    rw [List.getElem?_eraseIdx_of_ge _ _ _ (by omega)]
    have h7 : (m.tabs.eraseIdx index).length - 1 + 1 = m.active_tab_index := by
      omega
    rw [h7]
  · split
    · rename_i hnoclamp hdec
      have h6 : index < m.active_tab_index := by omega
      rw [List.getElem?_eraseIdx_of_ge _ _ _ (by omega)]
      have h7 : m.active_tab_index - 1 + 1 = m.active_tab_index := by omega
      rw [h7]
    · rename_i hnoclamp hnodec
      have h6 : m.active_tab_index < index := by omega
      rw [List.getElem?_eraseIdx_of_lt _ _ _ h6]

theorem claim_C10_close_other_witness :
    (({ tabs := [Tab.new "a10" "u0", Tab.new "b10" "u1"],
        active_tab_index := 1 } : TabManager).close_tab 0).2 = true ∧
    (({ tabs := [Tab.new "a10" "u0", Tab.new "b10" "u1"],
        active_tab_index := 1 } : TabManager).close_tab 0).1.active_tab =
      ({ tabs := [Tab.new "a10" "u0", Tab.new "b10" "u1"],
         active_tab_index := 1 } : TabManager).active_tab ∧
    (({ tabs := [Tab.new "a10" "u0", Tab.new "b10" "u1"],
        active_tab_index := 1 } : TabManager).close_tab 0).1.tabs =
      ({ tabs := [Tab.new "a10" "u0", Tab.new "b10" "u1"],
         active_tab_index := 1 } : TabManager).tabs.eraseIdx 0 :=
  claim_C10_close_other _ 0 (by decide) (by decide) (by decide) (by decide)

end Horizon
